import Mathlib

/-!
Verification of the in-memory virtual file system (`src/main.py`).

The Python program manipulates a graph of mutable `File`/`Folder` objects.
To capture reference semantics faithfully (shallow copies, shared children,
dangling cursors), the embedding stores every object in an explicit heap
(a list of entries indexed by allocation order) and represents every object
reference as a heap index.  Each Python method becomes a Lean function on
this state; methods that raise `ValueError` return `Except String`, carrying
the message text (quotes around interpolated values are dropped).
-/

/-! ## Python string primitives used by the source -/

/-- Characters that `str.splitlines` treats as line boundaries. -/
def isLineBreak (c : Char) : Bool :=
  c = '\n' || c = '\r' || c.toNat = 0x0b || c.toNat = 0x0c ||
  c.toNat = 0x1c || c.toNat = 0x1d || c.toNat = 0x1e || c.toNat = 0x85 ||
  c.toNat = 0x2028 || c.toNat = 0x2029

/-- Worker for `splitlines`: `acc` holds the current line, reversed.
A trailing line is emitted only if nonempty; `"\r\n"` counts as one boundary. -/
def splitlinesAux (acc : List Char) : List Char → List (List Char)
  | [] => if acc.isEmpty then [] else [acc.reverse]
  | '\r' :: '\n' :: rest => acc.reverse :: splitlinesAux [] rest
  | c :: rest =>
      if isLineBreak c then acc.reverse :: splitlinesAux [] rest
      else splitlinesAux (c :: acc) rest

/-- Python `s.splitlines()`. -/
def splitlines (s : String) : List String :=
  (splitlinesAux [] s.data).map String.mk

/-- Python `"\n".join(lines)`. -/
def joinNL : List String → String
  | [] => ""
  | [x] => x
  | x :: xs => x ++ "\n" ++ joinNL xs

/-- Python `path.strip("/")`. -/
def stripSlashes (l : List Char) : List Char :=
  ((l.dropWhile (fun c => c = '/')).reverse.dropWhile (fun c => c = '/')).reverse

/-- Worker for `split("/")`: note `"".split("/") == [""]`, i.e. the result is
never empty. -/
def splitSlashAux (acc : List Char) : List Char → List (List Char)
  | [] => [acc.reverse]
  | c :: rest =>
      if c = '/' then acc.reverse :: splitSlashAux [] rest
      else splitSlashAux (c :: acc) rest

/-- Python `path.strip("/").split("/")`, as used by every operation. -/
def pathSegs (p : String) : List String :=
  (splitSlashAux [] (stripSlashes p.data)).map String.mk

/-- Python `path.startswith("/")` (on the original, unstripped path). -/
def isAbs (p : String) : Bool := p.data.head? = some '/'

/-! ## Objects and the heap -/

/-- A Python `File` or `Folder` object.  A `File` stores its content as the
list of lines (`self.data`); a `Folder` stores its `contents` dict as an
insertion-ordered association list from child name to heap index. -/
inductive Entry where
  | file (name : String) (data : List String)
  | folder (name : String) (contents : List (String × Nat))
deriving DecidableEq, Repr

abbrev Heap := List Entry

/-- Read a heap cell; out-of-range indices yield a dummy entry (a Python
dereference of a stale index cannot occur for indices actually allocated). -/
def getEnt : Heap → Nat → Entry
  | [], _ => .folder "" []
  | e :: _, 0 => e
  | _ :: rest, n + 1 => getEnt rest n

/-- Overwrite a heap cell in place (no-op when out of range). -/
def setEnt : Heap → Nat → Entry → Heap
  | [], _, _ => []
  | _ :: rest, 0, e => e :: rest
  | x :: rest, n + 1, e => x :: setEnt rest n e

def Entry.name : Entry → String
  | .file n _ => n
  | .folder n _ => n

/-- The `contents` dict of a folder (empty for a file, which in Python would
be an `AttributeError`; unreachable in the verified paths). -/
def entContents : Entry → List (String × Nat)
  | .folder _ c => c
  | .file _ _ => []

def isFolder : Entry → Bool
  | .folder _ _ => true
  | .file _ _ => false

/-- `File.read`: join the stored lines with newlines. -/
def Entry.read : Entry → String
  | .file _ d => joinNL d
  | .folder _ _ => ""

/-- `File.append`: push one raw line (not re-split) onto the line list. -/
def Entry.append : Entry → String → Entry
  | .file n d, c => .file n (d ++ [c])
  | .folder n c, _ => .folder n c

/-! ## Python `dict` operations (insertion-ordered, unique keys) -/

/-- `key in d`. -/
def dictHasKey : List (String × Nat) → String → Bool
  | [], _ => false
  | kv :: rest, k => kv.1 = k || dictHasKey rest k

/-- `d[key]`, as an option. -/
def dictLookup : List (String × Nat) → String → Option Nat
  | [], _ => none
  | kv :: rest, k => if kv.1 = k then some kv.2 else dictLookup rest k

/-- `d[key] = v`: replaces in place when the key exists (keeping its
position, as CPython dicts do), otherwise appends. -/
def dictSet (m : List (String × Nat)) (k : String) (v : Nat) :
    List (String × Nat) :=
  if dictHasKey m k then m.map (fun kv => if kv.1 = k then (k, v) else kv)
  else m ++ [(k, v)]

/-- `if key in d: del d[key]` (`Folder.remove`). -/
def dictRemove : List (String × Nat) → String → List (String × Nat)
  | [], _ => []
  | kv :: rest, k =>
      if kv.1 = k then dictRemove rest k else kv :: dictRemove rest k

/-! ## The `FileSystem` state -/

/-- `FileSystem.__init__` allocates one root folder; `root` and
`current_folder` are object references, i.e. heap indices. -/
structure FileSystem where
  heap : Heap
  root : Nat
  current_folder : Nat
deriving DecidableEq, Repr

def initFS : FileSystem :=
  { heap := [.folder "root" []], root := 0, current_folder := 0 }

/-- Replace a folder cell's `contents` dict, keeping its name
(`folder.contents` mutation); no-op on a file cell. -/
def updContents (h : Heap) (i : Nat)
    (f : List (String × Nat) → List (String × Nat)) : Heap :=
  match getEnt h i with
  | .folder n c => setEnt h i (.folder n (f c))
  | .file _ _ => h

/-- `item.name = n`. -/
def setName (h : Heap) (i : Nat) (n : String) : Heap :=
  match getEnt h i with
  | .file _ d => setEnt h i (.file n d)
  | .folder _ c => setEnt h i (.folder n c)

/-- The loop body of `FileSystem.find_parent`: scan the root's immediate
children for a folder whose `contents.values()` contains the given
reference. -/
def findParentAux (h : Heap) (folder : Nat) : List (String × Nat) → Option Nat
  | [] => none
  | kv :: rest =>
      match getEnt h kv.2 with
      | .folder _ c =>
          if c.any (fun kv2 => kv2.2 = folder) then some kv.2
          else findParentAux h folder rest
      | .file _ _ => findParentAux h folder rest

/-- `FileSystem.find_parent`: searches only the root's immediate children and
falls back to root. -/
def find_parent (fs : FileSystem) (folder : Nat) : Nat :=
  (findParentAux fs.heap folder (entContents (getEnt fs.heap fs.root))).getD
    fs.root

/-- Fuel bound large enough for every terminating traversal in the claims. -/
def heapFuel (fs : FileSystem) : Nat :=
  fs.heap.length * fs.heap.length + fs.heap.length + 1

/-- The `while folder != self.root` loop of `get_full_path`, collecting names
bottom-up (fuel replaces the unguarded Python loop; it is never exhausted in
the verified scenarios). -/
def fullPathAux (fs : FileSystem) : Nat → Nat → List String → List String
  | 0, _, parts => parts
  | fuel + 1, folder, parts =>
      if folder = fs.root then parts
      else
        fullPathAux fs fuel (find_parent fs folder)
          (parts ++ [(getEnt fs.heap folder).name])

/-- `FileSystem.get_full_path`: path of the *current* folder. -/
def get_full_path (fs : FileSystem) : String :=
  String.intercalate "/"
    (List.reverse
      (fullPathAux fs (heapFuel fs) fs.current_folder [] ++
        [(getEnt fs.heap fs.root).name]))

/-! ## Path walks -/

/-- The segment loop of `change_directory`: handles `".."` via `find_parent`
and requires every other segment to name a child folder. -/
def cdWalk (fs : FileSystem) (path : String) : Nat → List String →
    Except String Nat
  | cur, [] => .ok cur
  | cur, p :: ps =>
      if p = ".." then
        if cur = fs.root then .error "Already at the root directory."
        else cdWalk fs path (find_parent fs cur) ps
      else
        match dictLookup (entContents (getEnt fs.heap cur)) p with
        | some j =>
            if isFolder (getEnt fs.heap j) then cdWalk fs path j ps
            else
              .error ("Invalid path: " ++ path ++
                " does not exist or is not a folder.")
        | none =>
            .error ("Invalid path: " ++ path ++
              " does not exist or is not a folder.")

/-- The shared walking loop of the other operations:
`folder = folder.get(part)` (raising `"Item not found"` when absent) followed
by an `isinstance(folder, Folder)` check raising the operation's message. -/
def walkGet (h : Heap) (err : String → String) : Nat → List String →
    Except String Nat
  | cur, [] => .ok cur
  | cur, p :: ps =>
      match dictLookup (entContents (getEnt h cur)) p with
      | none => .error "Item not found"
      | some j =>
          if isFolder (getEnt h j) then walkGet h err j ps
          else .error (err p)

/-! ## Public operations

Each mutating operation returns the raised error (if any) *and* the state it
leaves behind, so that the absence of partial mutation on failure is a
provable property rather than an artifact of the embedding. -/

/-- `FileSystem.change_directory`. -/
def change_directory (fs : FileSystem) (path : String) :
    Except String Unit × FileSystem :=
  if path = "/" then (.ok (), { fs with current_folder := fs.root })
  else
    match cdWalk fs path (if isAbs path then fs.root else fs.current_folder)
        (pathSegs path) with
    | .ok f => (.ok (), { fs with current_folder := f })
    | .error e => (.error e, fs)

/-- `FileSystem.list_directory`: names (the `.name` attributes, not the dict
keys) of the current folder's children. -/
def list_directory (fs : FileSystem) : List String :=
  (entContents (getEnt fs.heap fs.current_folder)).map
    (fun kv => (getEnt fs.heap kv.2).name)

/-- Common tail of `create_folder`: uniqueness check, then
`folder.add(Folder(name))` (allocating the new folder cell). -/
def createFolderIn (fs : FileSystem) (fid : Nat) (name : String) :
    Except String Unit × FileSystem :=
  if dictHasKey (entContents (getEnt fs.heap fid)) name then
    (.error ("A file or folder with the name " ++ name ++
      " already exists."), fs)
  else
    (.ok (),
      { fs with
        heap := updContents (fs.heap ++ [.folder name []]) fid
          (fun c => dictSet c name fs.heap.length) })

/-- `FileSystem.create_folder(path=None, name=None)`.  With only one
positional argument the argument is the folder name, created in the current
directory.  (Calling it with neither argument would build a Python `Folder`
whose name is `None`; no claim exercises that call, and it is modelled as an
error.) -/
def create_folder (fs : FileSystem) (pathArg nameArg : Option String) :
    Except String Unit × FileSystem :=
  match nameArg, pathArg with
  | none, none => (.error "TypeError", fs)
  | none, some p => createFolderIn fs fs.current_folder p
  | some n, none => createFolderIn fs fs.current_folder n
  | some n, some p =>
      match walkGet fs.heap
          (fun _ => "Invalid path: " ++ p ++
            " does not exist or is not a folder.")
          (if isAbs p then fs.root else fs.current_folder) (pathSegs p) with
      | .error e => (.error e, fs)
      | .ok f => createFolderIn fs f n

/-- `FileSystem.create_file(path, content="")`.  Note that the base folder is
chosen by `path.startswith("/")` only when the path still has parent
segments after popping the filename; a bare (or single-segment absolute)
path is resolved in the current folder. -/
def create_file (fs : FileSystem) (path content : String) :
    Except String Unit × FileSystem :=
  let segs := pathSegs path
  let filename := segs.getLastD ""
  let pparts := segs.dropLast
  match
    (if pparts.isEmpty then .ok fs.current_folder
     else
       walkGet fs.heap (fun part => "Folder " ++ part ++ " does not exist.")
         (if isAbs path then fs.root else fs.current_folder) pparts :
     Except String Nat) with
  | .error e => (.error e, fs)
  | .ok fid =>
      if dictHasKey (entContents (getEnt fs.heap fid)) filename then
        (.error ("File " ++ filename ++ " already exists."), fs)
      else
        (.ok (),
          { fs with
            heap := updContents
              (fs.heap ++ [.file filename (splitlines content)]) fid
              (fun c => dictSet c filename fs.heap.length) })

/-- `FileSystem.read_file`. -/
def read_file (fs : FileSystem) (path : String) : Except String String :=
  let segs := pathSegs path
  let filename := segs.getLastD ""
  let pparts := segs.dropLast
  match walkGet fs.heap (fun _ => "Invalid path")
      (if isAbs path then fs.root else fs.current_folder) pparts with
  | .error e => .error e
  | .ok fid =>
      match dictLookup (entContents (getEnt fs.heap fid)) filename with
      | none => .error "Item not found"
      | some j =>
          match getEnt fs.heap j with
          | .file _ d => .ok (joinNL d)
          | .folder _ _ => .error "Specified path is not a file"

/-- `FileSystem.move`: resolve both sides, then
`src_folder.remove(src_name); item.name = dest_name; dest_folder.add(item)`
— with no existence check at the destination. -/
def move (fs : FileSystem) (source_path destination_path : String) :
    Except String Unit × FileSystem :=
  let sSegs := pathSegs source_path
  let src_name := sSegs.getLastD ""
  let sParts := sSegs.dropLast
  match walkGet fs.heap (fun _ => "Invalid source path")
      (if isAbs source_path then fs.root else fs.current_folder) sParts with
  | .error e => (.error e, fs)
  | .ok srcF =>
      match dictLookup (entContents (getEnt fs.heap srcF)) src_name with
      | none => (.error "Item not found", fs)
      | some item =>
          let dSegs := pathSegs destination_path
          let dest_name := dSegs.getLastD ""
          let dParts := dSegs.dropLast
          match walkGet fs.heap (fun _ => "Invalid destination path")
              (if isAbs destination_path then fs.root else fs.current_folder)
              dParts with
          | .error e => (.error e, fs)
          | .ok destF =>
              let h1 := updContents fs.heap srcF
                (fun c => dictRemove c src_name)
              let h2 := setName h1 item dest_name
              let h3 := updContents h2 destF
                (fun c => dictSet c dest_name item)
              (.ok (), { fs with heap := h3 })

/-- `FileSystem.copy`: like `move`, but allocates a clone.  A file clone
re-splits `item.read()`; a folder clone takes `item.contents.copy()` — the
*same* association list, so the child references are shared. -/
def copy (fs : FileSystem) (source_path destination_path : String) :
    Except String Unit × FileSystem :=
  let sSegs := pathSegs source_path
  let src_name := sSegs.getLastD ""
  let sParts := sSegs.dropLast
  match walkGet fs.heap (fun _ => "Invalid source path")
      (if isAbs source_path then fs.root else fs.current_folder) sParts with
  | .error e => (.error e, fs)
  | .ok srcF =>
      match dictLookup (entContents (getEnt fs.heap srcF)) src_name with
      | none => (.error "Item not found", fs)
      | some item =>
          let dSegs := pathSegs destination_path
          let dest_name := dSegs.getLastD ""
          let dParts := dSegs.dropLast
          match walkGet fs.heap (fun _ => "Invalid destination path")
              (if isAbs destination_path then fs.root else fs.current_folder)
              dParts with
          | .error e => (.error e, fs)
          | .ok destF =>
              let clone : Entry :=
                match getEnt fs.heap item with
                | .file _ d => .file dest_name (splitlines (joinNL d))
                | .folder _ c => .folder dest_name c
              (.ok (),
                { fs with
                  heap := updContents (fs.heap ++ [clone]) destF
                    (fun c => dictSet c dest_name fs.heap.length) })

/-- `FileSystem.delete`: `folder.remove(name)` — a no-op when absent. -/
def delete (fs : FileSystem) (path : String) :
    Except String Unit × FileSystem :=
  let segs := pathSegs path
  let name := segs.getLastD ""
  let pparts := segs.dropLast
  match walkGet fs.heap (fun _ => "Invalid path")
      (if isAbs path then fs.root else fs.current_folder) pparts with
  | .error e => (.error e, fs)
  | .ok fid =>
      (.ok (),
        { fs with heap := updContents fs.heap fid (fun c => dictRemove c name) })

/-- `FileSystem.rename`: `folder.remove(name); item.name = new_name;
folder.add(item)` — with no collision check on `new_name`. -/
def rename (fs : FileSystem) (path new_name : String) :
    Except String Unit × FileSystem :=
  let segs := pathSegs path
  let name := segs.getLastD ""
  let pparts := segs.dropLast
  match walkGet fs.heap (fun _ => "Invalid path")
      (if isAbs path then fs.root else fs.current_folder) pparts with
  | .error e => (.error e, fs)
  | .ok fid =>
      match dictLookup (entContents (getEnt fs.heap fid)) name with
      | none => (.error "Item not found", fs)
      | some item =>
          let h1 := updContents fs.heap fid (fun c => dictRemove c name)
          let h2 := setName h1 item new_name
          let h3 := updContents h2 fid (fun c => dictSet c new_name item)
          (.ok (), { fs with heap := h3 })

/-- The recursion of `FileSystem.search` over a folder's `contents`: a hit on
the dict key appends `f"{self.get_full_path()}/{item_name}"` — the *cursor's*
full path, whatever folder is being searched — and every child folder is
searched depth-first.  Fuel bounds the traversal (ample in all scenarios). -/
def searchAux (fs : FileSystem) (name : String) :
    Nat → List (String × Nat) → List String
  | _, [] => []
  | 0, _ :: _ => []
  | fuel + 1, kv :: rest =>
      (if kv.1 = name then [get_full_path fs ++ "/" ++ kv.1] else []) ++
      (match getEnt fs.heap kv.2 with
       | .folder _ c => searchAux fs name fuel c
       | .file _ _ => []) ++
      searchAux fs name fuel rest

/-- `FileSystem.search(name, folder)` from an explicit start folder. -/
def searchFrom (fs : FileSystem) (name : String) (fid : Nat) : List String :=
  searchAux fs name (heapFuel fs) (entContents (getEnt fs.heap fid))

/-- `FileSystem.search(name)` with the default start folder (the cursor). -/
def search (fs : FileSystem) (name : String) : List String :=
  searchFrom fs name fs.current_folder

/-! ## Harness definitions used to state the claims -/

/-- Resolve a path to the referenced entry, exactly as the common prefix of
`read_file`/`move`/`copy`/`rename` does (walk the parent segments, then
`folder.get(final_segment)`). -/
def resolve_entry (fs : FileSystem) (path : String) : Except String Nat :=
  let segs := pathSegs path
  let name := segs.getLastD ""
  let pparts := segs.dropLast
  match walkGet fs.heap (fun _ => "Invalid path")
      (if isAbs path then fs.root else fs.current_folder) pparts with
  | .error e => .error e
  | .ok fid =>
      match dictLookup (entContents (getEnt fs.heap fid)) name with
      | none => .error "Item not found"
      | some j => .ok j

/-- Obtain the `File` object at `path` and call `File.append(line)` on it
(object-level mutation, used to observe reference sharing). -/
def append_at (fs : FileSystem) (path line : String) : FileSystem :=
  match resolve_entry fs path with
  | .error _ => fs
  | .ok j => { fs with heap := setEnt fs.heap j ((getEnt fs.heap j).append line) }

/-- Ids of all entries reachable from a folder's contents (fuel-bounded
depth-first traversal). -/
def subtreeAux (h : Heap) : Nat → List (String × Nat) → List Nat
  | _, [] => []
  | 0, _ :: _ => []
  | fuel + 1, kv :: rest =>
      kv.2 :: (subtreeAux h fuel (entContents (getEnt h kv.2)) ++
        subtreeAux h fuel rest)

/-- Ids of the live members of the tree: root and everything reachable from
it. -/
def liveIds (fs : FileSystem) : List Nat :=
  fs.root :: subtreeAux fs.heap (heapFuel fs)
    (entContents (getEnt fs.heap fs.root))

/-- Every child reference stored anywhere in the heap is in bounds. -/
def HeapWF (h : Heap) : Prop :=
  ∀ e ∈ h, ∀ kv ∈ entContents e, kv.2 < h.length

instance (h : Heap) : Decidable (HeapWF h) := by
  unfold HeapWF; infer_instance

/-- Every child reference stored anywhere in the heap is in bounds, and the
root and cursor are in-bounds folder references.  This holds for every state
the public API can build. -/
def WFState (fs : FileSystem) : Prop :=
  HeapWF fs.heap ∧
  fs.root < fs.heap.length ∧ fs.current_folder < fs.heap.length ∧
  isFolder (getEnt fs.heap fs.root) = true ∧
  isFolder (getEnt fs.heap fs.current_folder) = true

instance (fs : FileSystem) : Decidable (WFState fs) := by
  unfold WFState; infer_instance

/-- Key-equals-name invariant over the live tree: every child is stored
under a key equal to its own `name` attribute. -/
def treeKeysMatch (fs : FileSystem) : Prop :=
  ∀ i ∈ liveIds fs, ∀ kv ∈ entContents (getEnt fs.heap i),
    (getEnt fs.heap kv.2).name = kv.1

instance (fs : FileSystem) : Decidable (treeKeysMatch fs) := by
  unfold treeKeysMatch; infer_instance


/-- Equality of raised-error results is decidable (used to evaluate the
operations on concrete scenarios). -/
instance {e a : Type} [DecidableEq e] [DecidableEq a] : DecidableEq (Except e a) :=
  fun x y =>
    match x, y with
    | .ok u, .ok v =>
        if h : u = v then isTrue (by rw [h])
        else isFalse (fun hc => by cases hc; exact h rfl)
    | .error u, .error v =>
        if h : u = v then isTrue (by rw [h])
        else isFalse (fun hc => by cases hc; exact h rfl)
    | .ok _, .error _ => isFalse (fun hc => by cases hc)
    | .error _, .ok _ => isFalse (fun hc => by cases hc)

/-! ## Concrete scenario states -/

/-- A root with two files `a` (content line `1`) and `b` (content line `2`). -/
def fsAB : FileSystem :=
  { heap := [.folder "root" [("a", 1), ("b", 2)], .file "a" ["1"],
      .file "b" ["2"]], root := 0, current_folder := 0 }

/-- Two sibling folders `u` and `v`, each holding a file named `f`. -/
def fsUV : FileSystem :=
  { heap := [.folder "root" [("u", 1), ("v", 2)], .folder "u" [("f", 3)],
      .folder "v" [("f", 4)], .file "f" ["1"], .file "f" ["2"]],
    root := 0, current_folder := 0 }

/-- A chain `root/a/b/c` of nested folders. -/
def chainFS : FileSystem :=
  { heap := [.folder "root" [("a", 1)], .folder "a" [("b", 2)],
      .folder "b" [("c", 3)], .folder "c" []], root := 0, current_folder := 0 }

def chain1 : FileSystem := (change_directory chainFS "/").2

def chain2 : FileSystem := (change_directory chain1 "a/b/c").2

def chain3 : Except String Unit × FileSystem := change_directory chain2 ".."

/-- The tree `/a/x`, `/a/b/x`, `/c/y` of the spec's search example, built by
the public operations themselves. -/
def srchA : FileSystem := (create_folder initFS (some "a") none).2

def srchB : FileSystem := (create_file srchA "a/x" "").2

def srchC : FileSystem := (create_folder srchB (some "a") (some "b")).2

def srchD : FileSystem := (create_file srchC "a/b/x" "").2

def srchE : FileSystem := (create_folder srchD (some "c") none).2

def srchF : FileSystem := (create_file srchE "c/y" "").2

/-- A folder `d` used as a non-root cursor position. -/
def curD1 : FileSystem := (create_folder initFS (some "d") none).2

def curD2 : FileSystem := (change_directory curD1 "d").2

/-- Dangling-cursor scenario: create `a`, enter it, then delete `/a`. -/
def dangA : FileSystem := (create_folder initFS (some "a") none).2

def dangB : FileSystem := (change_directory dangA "a").2

def dangC : FileSystem := (delete dangB "/a").2

/-- Shared-alias scenario: `/a/x` (a file), then `copy /a /b` (shallow),
then `rename /a/x y`. -/
def shrA : FileSystem := (create_folder initFS (some "a") none).2

def shrB : FileSystem := (create_file shrA "a/x" "hi").2

def shrC : FileSystem := (copy shrB "/a" "/b").2

def shrD : FileSystem := (rename shrC "/a/x" "y").2

/-- Self-copy scenario: a single folder `a`, copied into itself. -/
def selfA : FileSystem := (create_folder initFS (some "a") none).2

/-- Ancestor-overwrite scenario: nested folders `root/a/sub`, built by the
public operations. -/
def nestA : FileSystem := (create_folder initFS (some "a") none).2

def nestB : FileSystem := (create_folder nestA (some "a") (some "sub")).2

/-- A root holding two files `a` and `b` with arbitrary contents (the state
`create_file "a" c₁; create_file "b" c₂` builds from scratch). -/
def fsTwoFiles (c₁ c₂ : String) : FileSystem :=
  { heap := [.folder "root" [("a", 1), ("b", 2)], .file "a" (splitlines c₁),
      .file "b" (splitlines c₂)], root := 0, current_folder := 0 }

/-- A folder `a` holding one file `x` with arbitrary content. -/
def fsFolderX (c : String) : FileSystem :=
  { heap := [.folder "root" [("a", 1)], .folder "a" [("x", 2)],
      .file "x" (splitlines c)], root := 0, current_folder := 0 }

/-- A single file `f` under root with arbitrary content. -/
def fsFileF (c : String) : FileSystem :=
  { heap := [.folder "root" [("f", 1)], .file "f" (splitlines c)],
    root := 0, current_folder := 0 }


/-! ## Heap and dictionary lemmas -/

theorem setEnt_oob (h : Heap) (e : Entry) : ∀ i, h.length ≤ i → setEnt h i e = h := by
  induction h with
  | nil => intro i _; rfl
  | cons x rest ih =>
      intro i hi
      cases i with
      | zero => exact absurd hi (by simp)
      | succ n => simp only [setEnt]; rw [ih n (Nat.le_of_succ_le_succ hi)]

theorem length_setEnt (h : Heap) (e : Entry) : ∀ i, (setEnt h i e).length = h.length := by
  induction h with
  | nil => intro i; rfl
  | cons x rest ih =>
      intro i
      cases i with
      | zero => rfl
      | succ n => simp only [setEnt, List.length_cons, ih n]

theorem getEnt_setEnt_self (h : Heap) (e : Entry) :
    ∀ i, i < h.length → getEnt (setEnt h i e) i = e := by
  induction h with
  | nil => intro i hi; exact absurd hi (by simp)
  | cons x rest ih =>
      intro i hi
      cases i with
      | zero => rfl
      | succ n => exact ih n (Nat.lt_of_succ_lt_succ hi)

theorem getEnt_setEnt_ne (h : Heap) (e : Entry) :
    ∀ i j, i ≠ j → getEnt (setEnt h i e) j = getEnt h j := by
  induction h with
  | nil => intro i j _; rfl
  | cons x rest ih =>
      intro i j hij
      cases i with
      | zero =>
          cases j with
          | zero => exact absurd rfl hij
          | succ m => rfl
      | succ n =>
          cases j with
          | zero => rfl
          | succ m => exact ih n m (fun hc => hij (by rw [hc]))

theorem getEnt_append_lt (h l : Heap) : ∀ i, i < h.length → getEnt (h ++ l) i = getEnt h i := by
  induction h with
  | nil => intro i hi; exact absurd hi (by simp)
  | cons x rest ih =>
      intro i hi
      cases i with
      | zero => rfl
      | succ n => exact ih n (Nat.lt_of_succ_lt_succ hi)

theorem getEnt_append_len (h : Heap) (e : Entry) : getEnt (h ++ [e]) h.length = e := by
  induction h with
  | nil => rfl
  | cons x rest ih => exact ih

theorem getEnt_mem (h : Heap) : ∀ i, i < h.length → getEnt h i ∈ h := by
  induction h with
  | nil => intro i hi; exact absurd hi (by simp)
  | cons x rest ih =>
      intro i hi
      cases i with
      | zero => exact List.mem_cons_self _ _
      | succ n => exact List.mem_cons_of_mem _ (ih n (Nat.lt_of_succ_lt_succ hi))

theorem dictLookup_dictSet_self (m : List (String × Nat)) (k : String) (v : Nat) :
    dictLookup (dictSet m k v) k = some v := by
  unfold dictSet
  by_cases hk : dictHasKey m k = true
  · rw [if_pos hk]
    induction m with
    | nil => cases hk
    | cons kv rest ih =>
        simp only [dictHasKey, Bool.or_eq_true, decide_eq_true_eq] at hk
        by_cases h1 : kv.1 = k
        · simp [dictLookup, h1]
        · simp only [List.map_cons, if_neg h1, dictLookup, h1, if_false]
          exact ih (by rcases hk with hk | hk; exact absurd hk h1; exact hk)
  · rw [if_neg hk]
    induction m with
    | nil => simp [dictLookup]
    | cons kv rest ih =>
        simp only [dictHasKey, Bool.or_eq_true, decide_eq_true_eq] at hk
        push_neg at hk
        simp only [List.cons_append, dictLookup, if_neg hk.1]
        exact ih (by simpa using hk.2)

theorem dictLookup_map_ne (m : List (String × Nat)) (k k' : String) (v : Nat)
    (hne : k' ≠ k) :
    dictLookup (m.map (fun kv => if kv.1 = k then (k, v) else kv)) k' =
      dictLookup m k' := by
  induction m with
  | nil => rfl
  | cons kv rest ih =>
      by_cases h1 : kv.1 = k
      · simp only [List.map_cons, if_pos h1, dictLookup]
        rw [if_neg (fun hc => hne hc.symm), if_neg (fun hc => hne (h1 ▸ hc).symm)]
        exact ih
      · simp only [List.map_cons, if_neg h1, dictLookup]
        by_cases h2 : kv.1 = k'
        · rw [if_pos h2, if_pos h2]
        · rw [if_neg h2, if_neg h2]
          exact ih

theorem dictLookup_append_single_ne (m : List (String × Nat)) (k k' : String)
    (v : Nat) (hne : k' ≠ k) :
    dictLookup (m ++ [(k, v)]) k' = dictLookup m k' := by
  induction m with
  | nil =>
      simp only [List.nil_append, dictLookup]
      rw [if_neg (fun hc => hne (Eq.symm hc))]
  | cons kv rest ih =>
      simp only [List.cons_append, dictLookup]
      by_cases h2 : kv.1 = k'
      · rw [if_pos h2, if_pos h2]
      · rw [if_neg h2, if_neg h2]
        exact ih

theorem dictLookup_dictSet_ne (m : List (String × Nat)) (k k' : String) (v : Nat)
    (hne : k' ≠ k) : dictLookup (dictSet m k v) k' = dictLookup m k' := by
  unfold dictSet
  by_cases hk : dictHasKey m k = true
  · rw [if_pos hk]; exact dictLookup_map_ne m k k' v hne
  · rw [if_neg hk]; exact dictLookup_append_single_ne m k k' v hne

theorem dictHasKey_false_lookup (m : List (String × Nat)) (k : String)
    (h : dictHasKey m k = false) : dictLookup m k = none := by
  induction m with
  | nil => rfl
  | cons kv rest ih =>
      simp only [dictHasKey, Bool.or_eq_false_iff, decide_eq_false_iff_not] at h
      simp only [dictLookup, if_neg h.1]
      exact ih h.2

theorem dictLookup_mem (m : List (String × Nat)) (k : String) (v : Nat)
    (h : dictLookup m k = some v) : (k, v) ∈ m := by
  induction m with
  | nil => cases h
  | cons kv rest ih =>
      simp only [dictLookup] at h
      by_cases h1 : kv.1 = k
      · rw [if_pos h1] at h
        cases h
        exact h1 ▸ List.mem_cons_self _ _
      · rw [if_neg h1] at h
        exact List.mem_cons_of_mem _ (ih h)

theorem length_updContents (h : Heap) (i : Nat)
    (f : List (String × Nat) → List (String × Nat)) :
    (updContents h i f).length = h.length := by
  unfold updContents
  cases getEnt h i with
  | file n d => rfl
  | folder n c => exact length_setEnt h _ i

theorem getEnt_updContents_ne (h : Heap) (i j : Nat)
    (f : List (String × Nat) → List (String × Nat)) (hij : i ≠ j) :
    getEnt (updContents h i f) j = getEnt h j := by
  unfold updContents
  cases getEnt h i with
  | file n d => rfl
  | folder n c => exact getEnt_setEnt_ne h _ i j hij

theorem getEnt_updContents_self (h : Heap) (i : Nat) (n : String)
    (c : List (String × Nat)) (f : List (String × Nat) → List (String × Nat))
    (hi : i < h.length) (hf : getEnt h i = .folder n c) :
    getEnt (updContents h i f) i = .folder n (f c) := by
  unfold updContents
  rw [hf]
  exact getEnt_setEnt_self h _ i hi

theorem length_setName (h : Heap) (i : Nat) (n : String) :
    (setName h i n).length = h.length := by
  unfold setName
  cases getEnt h i with
  | file nm d => exact length_setEnt h _ i
  | folder nm c => exact length_setEnt h _ i

theorem getEnt_setName_ne (h : Heap) (i j : Nat) (n : String) (hij : i ≠ j) :
    getEnt (setName h i n) j = getEnt h j := by
  unfold setName
  cases getEnt h i with
  | file nm d => exact getEnt_setEnt_ne h _ i j hij
  | folder nm c => exact getEnt_setEnt_ne h _ i j hij

theorem getEnt_setName_self_file (h : Heap) (i : Nat) (n nm : String)
    (d : List String) (hi : i < h.length) (hf : getEnt h i = .file nm d) :
    getEnt (setName h i n) i = .file n d := by
  unfold setName
  rw [hf]
  exact getEnt_setEnt_self h _ i hi

theorem getEnt_setName_self_folder (h : Heap) (i : Nat) (n nm : String)
    (c : List (String × Nat)) (hi : i < h.length) (hf : getEnt h i = .folder nm c) :
    getEnt (setName h i n) i = .folder n c := by
  unfold setName
  rw [hf]
  exact getEnt_setEnt_self h _ i hi

theorem name_getEnt_setName_self (h : Heap) (i : Nat) (n : String)
    (hi : i < h.length) : (getEnt (setName h i n) i).name = n := by
  cases hf : getEnt h i with
  | file nm d => rw [getEnt_setName_self_file h i n nm d hi hf]; rfl
  | folder nm c => rw [getEnt_setName_self_folder h i n nm c hi hf]; rfl

/-- If an entry's `contents` yields a lookup hit, the entry is a folder. -/
theorem lookup_entry_folder (e : Entry) (p : String) (j : Nat)
    (h : dictLookup (entContents e) p = some j) :
    ∃ n c, e = .folder n c ∧ dictLookup c p = some j := by
  cases e with
  | file n d => cases h
  | folder n c => exact ⟨n, c, rfl, h⟩

theorem isFolder_ex (e : Entry) (h : isFolder e = true) :
    ∃ n c, e = .folder n c := by
  cases e with
  | file n d => cases h
  | folder n c => exact ⟨n, c, rfl⟩

/-! ## Walk lemmas -/

/-- A successful `walkGet` from an in-bounds folder ends at an in-bounds
folder. -/
theorem walkGet_ok_bound (h : Heap) (err : String → String) (hwf : HeapWF h) :
    ∀ (ps : List String) (cur F : Nat), cur < h.length →
      isFolder (getEnt h cur) = true → walkGet h err cur ps = .ok F →
      F < h.length ∧ isFolder (getEnt h F) = true := by
  intro ps
  induction ps with
  | nil =>
      intro cur F hc hfold hw
      cases hw
      exact ⟨hc, hfold⟩
  | cons p rest ih =>
      intro cur F hc hfold hw
      cases hl : dictLookup (entContents (getEnt h cur)) p with
      | none => simp only [walkGet, hl] at hw; cases hw
      | some j =>
          simp only [walkGet, hl] at hw
          by_cases hj : isFolder (getEnt h j) = true
          · rw [if_pos hj] at hw
            have hjlt : j < h.length :=
              hwf (getEnt h cur) (getEnt_mem h cur hc) (p, j)
                (dictLookup_mem _ _ _ hl)
            exact ih j F hjlt hj hw
          · rw [if_neg hj] at hw; cases hw

/-- Each `walkGet` either succeeds or raises `"Item not found"` (from
`Folder.get`) or the operation's not-a-folder message. -/
theorem walkGet_cases (h : Heap) (err : String → String) :
    ∀ (ps : List String) (cur : Nat),
      (∃ F, walkGet h err cur ps = .ok F) ∨
      walkGet h err cur ps = .error "Item not found" ∨
      ∃ p, walkGet h err cur ps = .error (err p) := by
  intro ps
  induction ps with
  | nil => intro cur; exact .inl ⟨cur, rfl⟩
  | cons p rest ih =>
      intro cur
      cases hl : dictLookup (entContents (getEnt h cur)) p with
      | none =>
          refine .inr (.inl ?_)
          simp only [walkGet, hl]
      | some j =>
          by_cases hj : isFolder (getEnt h j) = true
          · simpa only [walkGet, hl, if_pos hj] using ih j
          · refine .inr (.inr ⟨p, ?_⟩)
            simp only [walkGet, hl, if_neg hj]

/-! ## String-level lemmas about path splitting -/

theorem dropWhile_all_slash (l : List Char)
    (h : ∀ c ∈ l, c = '/') : l.dropWhile (fun c => c = '/') = [] := by
  induction l with
  | nil => rfl
  | cons c rest ih =>
      rw [List.dropWhile_cons_of_pos (by simp [h c (List.mem_cons_self c rest)])]
      exact ih (fun c hc => h c (List.mem_cons_of_mem _ hc))

theorem dropWhile_no_slash (l : List Char)
    (h : ∀ c ∈ l, c ≠ '/') : l.dropWhile (fun c => c = '/') = l := by
  cases l with
  | nil => rfl
  | cons c rest =>
      exact List.dropWhile_cons_of_neg
        (by simp [h c (List.mem_cons_self c rest)])

theorem stripSlashes_all_slash (l : List Char)
    (h : ∀ c ∈ l, c = '/') : stripSlashes l = [] := by
  unfold stripSlashes
  rw [dropWhile_all_slash l h]
  rfl

theorem stripSlashes_no_slash (l : List Char)
    (h : ∀ c ∈ l, c ≠ '/') : stripSlashes l = l := by
  unfold stripSlashes
  rw [dropWhile_no_slash l h,
    dropWhile_no_slash l.reverse (fun c hc => h c (List.mem_reverse.mp hc)),
    List.reverse_reverse]

theorem splitSlashAux_no_slash (l : List Char)
    (h : ∀ c ∈ l, c ≠ '/') : ∀ acc, splitSlashAux acc l = [acc.reverse ++ l] := by
  induction l with
  | nil => intro acc; simp [splitSlashAux]
  | cons c rest ih =>
      intro acc
      unfold splitSlashAux
      rw [if_neg (by simpa using h c (List.mem_cons_self c rest))]
      rw [ih (fun x hx => h x (List.mem_cons_of_mem _ hx)) (c :: acc)]
      simp

/-- A slash-free path splits into itself as a single segment. -/
theorem pathSegs_no_slash (name : String)
    (h : ∀ c ∈ name.data, c ≠ '/') : pathSegs name = [name] := by
  unfold pathSegs
  rw [stripSlashes_no_slash name.data h, splitSlashAux_no_slash name.data h []]
  rfl

/-- Prefixing a slash-free name with `/` yields the same single segment. -/
theorem pathSegs_slash_name (name : String)
    (h : ∀ c ∈ name.data, c ≠ '/') : pathSegs ("/" ++ name) = [name] := by
  unfold pathSegs
  have hdata : ("/" ++ name).data = '/' :: name.data := by
    cases name with
    | mk l => rfl
  rw [hdata]
  unfold stripSlashes
  rw [List.dropWhile_cons_of_pos (by simp), dropWhile_no_slash name.data h,
    dropWhile_no_slash name.data.reverse (fun c hc => h c (List.mem_reverse.mp hc)),
    List.reverse_reverse, splitSlashAux_no_slash name.data h []]
  rfl

/-- An all-slash path yields the single empty segment (Python
`"".split("/") == [""]`). -/
theorem pathSegs_all_slash (p : String)
    (h : ∀ c ∈ p.data, c = '/') : pathSegs p = [""] := by
  unfold pathSegs
  rw [stripSlashes_all_slash p.data h]
  rfl

/-! ## Join lemmas -/

theorem joinNL_append_singleton (line : String) :
    ∀ d : List String, d ≠ [] → joinNL (d ++ [line]) = joinNL d ++ "\n" ++ line := by
  intro d
  induction d with
  | nil => intro hc; exact absurd rfl hc
  | cons x rest ih =>
      intro _
      cases rest with
      | nil => rfl
      | cons y t =>
          have hstep : joinNL ((x :: y :: t) ++ [line]) =
              x ++ "\n" ++ joinNL ((y :: t) ++ [line]) := rfl
          have hx : joinNL (x :: y :: t) = x ++ "\n" ++ joinNL (y :: t) := rfl
          rw [hstep, ih (by simp), hx]
          simp [String.append_assoc]

/-! ## Claim theorems: concrete counterexamples and bug evaluations -/

/-- Claim C1 counterexample: with files `a` and `b` under root, the call
`rename("a", "b")` — whose destination leaf name `b` collides with an
existing sibling — does not fail with AlreadyExists: it succeeds and the
moved item silently replaces the sibling (afterwards `b` reads as file `a`'s
content and the directory lists a single entry).  Likewise `move("u/f",
"v/f")` succeeds and replaces `v/f`. -/
theorem C1_counterexample :
    (rename fsAB "a" "b").1 = .ok () ∧
    read_file (rename fsAB "a" "b").2 "b" = .ok "1" ∧
    list_directory (rename fsAB "a" "b").2 = ["b"] ∧
    (move fsUV "u/f" "v/f").1 = .ok () ∧
    read_file (move fsUV "u/f" "v/f").2 "v/f" = .ok "1" := by decide

/-- Claim C2 (code bug evaluation): on the chain `root/a/b/c`, after
`changeDirectory("/")` and `changeDirectory("a/b/c")`, the cursor's true
parent is folder `b` (heap index 2, which holds `c` among its children), but
the first `changeDirectory("..")` sets the cursor to root instead — because
`find_parent` only scans the root's immediate children — and the second
`".."` then raises the at-root error, so the three `".."` steps of the claim
do not each ascend one level. -/
theorem C2_bug :
    (change_directory chainFS "/").1 = .ok () ∧
    (change_directory chain1 "a/b/c").1 = .ok () ∧
    dictLookup (entContents (getEnt chain2.heap 2)) "c" =
      some chain2.current_folder ∧
    chain3.1 = .ok () ∧
    chain3.2.current_folder = chainFS.root ∧
    (2 : Nat) ≠ chainFS.root ∧
    (change_directory chain3.2 "..").1 =
      .error "Already at the root directory." := by decide

/-- Claim C4 (code bug evaluation): on the tree containing `/a/x`, `/a/b/x`
and `/c/y` (built by the public operations, cursor at root), `search("x")`
prefixes every hit with the *cursor's* full path, returning `root/x` twice
instead of the matched entries' own full paths `root/a/x` and `root/a/b/x`;
a name that occurs nowhere returns the empty sequence. -/
theorem C4_bug :
    search srchF "x" = ["root/x", "root/x"] ∧
    (["root/x", "root/x"] : List String) ≠ ["root/a/x", "root/a/b/x"] ∧
    search srchF "q" = [] := by decide

/-- Claim C5 counterexample: `createFile` splits the content with
`splitlines` and `readFile` rejoins with `\n`, so a content string with a
trailing newline does not round-trip: writing `"hello\n"` reads back
`"hello"`. -/
theorem C5_counterexample :
    (create_file initFS "f" "hello\n").1 = .ok () ∧
    read_file (create_file initFS "f" "hello\n").2 "f" = .ok "hello" ∧
    ("hello" : String) ≠ "hello\n" := by decide

/-- Claim C6 counterexample: two successful copies violate "the source
entry remains resolvable ... with unchanged content/children" as
universally stated.  First, `copy("/a", "/a/b")` — destination parent =
the source folder itself — changes the source's own children (the clone
`b` lands inside `a`).  Second, on `root/a/sub`, `copy("/a/sub", "/a")` —
a colliding destination leaf — makes `Folder.add` silently replace
`root.contents["a"]` with the clone, detaching the source's ancestor, so
`/a/sub` stops resolving altogether. -/
theorem C6_counterexample :
    ((copy selfA "/a" "/a/b").1 = .ok () ∧
      entContents (getEnt selfA.heap 1) = [] ∧
      entContents (getEnt (copy selfA "/a" "/a/b").2.heap 1) = [("b", 2)]) ∧
    (resolve_entry nestB "/a/sub" = .ok 2 ∧
      (copy nestB "/a/sub" "/a").1 = .ok () ∧
      resolve_entry (copy nestB "/a/sub" "/a").2 "/a/sub" =
        .error "Item not found") := by
  decide

/-- Claim C7 counterexample: with the cursor inside folder `d`,
`createFile("/f", "hi")` succeeds but attaches the file to the *current*
folder, not to root: `readFile("/f")` (absolute, resolved from root) fails
with item-not-found, `readFile("f")` (relative) returns the content, and
root has no child `f`. -/
theorem C7_counterexample :
    (create_file curD2 "/f" "hi").1 = .ok () ∧
    read_file (create_file curD2 "/f" "hi").2 "/f" = .error "Item not found" ∧
    read_file (create_file curD2 "/f" "hi").2 "f" = .ok "hi" ∧
    dictLookup (entContents (getEnt (create_file curD2 "/f" "hi").2.heap 0))
      "f" = none := by decide

/-- Claim C8 counterexample: after `createFolder("a")`,
`changeDirectory("a")`, `delete("/a")` — three successful public
operations — the cursor still references the detached folder, which is no
longer reachable from root: the cursor dangles. -/
theorem C8_counterexample :
    (create_folder initFS (some "a") none).1 = .ok () ∧
    (change_directory dangA "a").1 = .ok () ∧
    (delete dangB "/a").1 = .ok () ∧
    dangC.current_folder ∉ liveIds dangC := by decide

/-- Claim C9 counterexample: an empty path and an all-slash path other than
the literal `"/"` do not resolve to the base folder: Python splitting gives
the single empty segment `""`, which fails lookup, so `changeDirectory`
raises InvalidPath (leaving the state unchanged) instead of succeeding. -/
theorem C9_counterexample :
    change_directory initFS "" =
      (.error "Invalid path:  does not exist or is not a folder.", initFS) ∧
    change_directory initFS "//" =
      (.error "Invalid path: // does not exist or is not a folder.", initFS) := by
  decide

/-- Claim C10 counterexample: in the reachable state obtained by
`createFolder("a")`, `createFile("a/x", "hi")`, `copy("/a", "/b")` (shallow,
so `b` shares the file object), `rename("/a/x", "y")` — every step
succeeding — folder `b` (live, index 3) still stores the shared file under
key `"x"` while the entry's own name is now `"y"`: the key-equals-name
invariant fails in a reachable state. -/
theorem C10_counterexample :
    (create_folder initFS (some "a") none).1 = .ok () ∧
    (create_file shrA "a/x" "hi").1 = .ok () ∧
    (copy shrB "/a" "/b").1 = .ok () ∧
    (rename shrC "/a/x" "y").1 = .ok () ∧
    treeKeysMatch shrC ∧
    ¬ treeKeysMatch shrD ∧
    3 ∈ liveIds shrD ∧
    dictLookup (entContents (getEnt shrD.heap 3)) "x" = some 2 ∧
    (getEnt shrD.heap 2).name = "y" := by decide

/-! ## Claim theorems: amended and general statements -/

/-- Claim C1 (amended): `rename` and `move` perform no existence check at
the destination — their only errors are the source/path resolution errors,
never an AlreadyExists error — and a colliding destination leaf silently
replaces the existing sibling: for arbitrary file contents, renaming `a`
over its sibling `b` succeeds, after which the parent lists a single entry
`b` holding `a`'s content. -/
theorem C1_amended :
    (∀ fs p n, (rename fs p n).1 = .ok () ∨
      (rename fs p n).1 = .error "Item not found" ∨
      (rename fs p n).1 = .error "Invalid path") ∧
    (∀ fs s d, (move fs s d).1 = .ok () ∨
      (move fs s d).1 = .error "Item not found" ∨
      (move fs s d).1 = .error "Invalid source path" ∨
      (move fs s d).1 = .error "Invalid destination path") ∧
    (∀ c₁ c₂ : String,
      (rename (fsTwoFiles c₁ c₂) "a" "b").1 = .ok () ∧
      read_file (rename (fsTwoFiles c₁ c₂) "a" "b").2 "b" =
        .ok (joinNL (splitlines c₁)) ∧
      list_directory (rename (fsTwoFiles c₁ c₂) "a" "b").2 = ["b"]) := by
  refine ⟨?_, ?_, ?_⟩
  · intro fs p n
    simp only [rename]
    rcases walkGet_cases fs.heap (fun _ => "Invalid path")
        (pathSegs p).dropLast
        (if isAbs p then fs.root else fs.current_folder) with
      ⟨F, hF⟩ | hE | ⟨q, hq⟩
    · simp only [hF]
      cases hl : dictLookup (entContents (getEnt fs.heap F))
          ((pathSegs p).getLastD "") with
      | none => simp [hl]
      | some item => simp [hl]
    · simp [hE]
    · simp [hq]
  · intro fs s d
    simp only [move]
    rcases walkGet_cases fs.heap (fun _ => "Invalid source path")
        (pathSegs s).dropLast
        (if isAbs s then fs.root else fs.current_folder) with
      ⟨F, hF⟩ | hE | ⟨q, hq⟩
    · simp only [hF]
      cases hl : dictLookup (entContents (getEnt fs.heap F))
          ((pathSegs s).getLastD "") with
      | none => simp [hl]
      | some item =>
          simp only [hl]
          rcases walkGet_cases fs.heap (fun _ => "Invalid destination path")
              (pathSegs d).dropLast
              (if isAbs d then fs.root else fs.current_folder) with
            ⟨G, hG⟩ | hE2 | ⟨q2, hq2⟩
          · simp [hG]
          · simp [hE2]
          · simp [hq2]
    · simp [hE]
    · simp [hq]
  · intro c₁ c₂
    exact ⟨rfl, rfl, rfl⟩

/-- Claim C3: every failing public operation leaves the whole state (heap,
hence tree structure and file contents, and the cursor) exactly as it was:
all raises occur before the first mutation, so failures are all-or-nothing. -/
theorem C3_atomic :
    (∀ fs p e, (change_directory fs p).1 = .error e →
      (change_directory fs p).2 = fs) ∧
    (∀ fs pa na e, (create_folder fs pa na).1 = .error e →
      (create_folder fs pa na).2 = fs) ∧
    (∀ fs p c e, (create_file fs p c).1 = .error e →
      (create_file fs p c).2 = fs) ∧
    (∀ fs s d e, (move fs s d).1 = .error e → (move fs s d).2 = fs) ∧
    (∀ fs s d e, (copy fs s d).1 = .error e → (copy fs s d).2 = fs) ∧
    (∀ fs p e, (delete fs p).1 = .error e → (delete fs p).2 = fs) ∧
    (∀ fs p n e, (rename fs p n).1 = .error e → (rename fs p n).2 = fs) := by
  refine ⟨?_, ?_, ?_, ?_, ?_, ?_, ?_⟩
  · intro fs p e
    simp only [change_directory]
    split
    · intro h; nomatch h
    · split
      · intro h; nomatch h
      · intro _; rfl
  · intro fs pa na e
    cases pa <;> cases na <;> simp only [create_folder, createFolderIn]
    · intro _; trivial
    · split
      · intro _; rfl
      · intro h; nomatch h
    · split
      · intro _; rfl
      · intro h; nomatch h
    · split
      · intro _; rfl
      · split
        · intro _; rfl
        · intro h; nomatch h
  · intro fs p c e
    simp only [create_file]
    split
    · intro _; rfl
    · split
      · intro _; rfl
      · intro h; nomatch h
  · intro fs s d e
    simp only [move]
    split
    · intro _; rfl
    · split
      · intro _; rfl
      · split
        · intro _; rfl
        · intro h; nomatch h
  · intro fs s d e
    simp only [copy]
    split
    · intro _; rfl
    · split
      · intro _; rfl
      · split
        · intro _; rfl
        · intro h; nomatch h
  · intro fs p e
    simp only [delete]
    split
    · intro _; rfl
    · intro h; nomatch h
  · intro fs p n e
    simp only [rename]
    split
    · intro _; rfl
    · split
      · intro _; rfl
      · intro h; nomatch h

/-- Claim C3 witness: a concrete failing call (changing directory to a
nonexistent folder from the initial state) leaves the state untouched. -/
theorem C3_atomic_witness :
    (change_directory initFS "nope").1 =
      .error "Invalid path: nope does not exist or is not a folder." ∧
    (change_directory initFS "nope").2 = initFS :=
  ⟨by decide, C3_atomic.1 initFS "nope"
    "Invalid path: nope does not exist or is not a folder." (by decide)⟩

/-- Claim C8 (amended): the cursor starts at root and no public operation
other than `change_directory` ever reassigns it (the liveness half of the
original claim fails: `delete` can detach the folder the cursor references,
see the counterexample). -/
theorem C8_amended :
    initFS.current_folder = initFS.root ∧
    (∀ fs pa na, (create_folder fs pa na).2.current_folder = fs.current_folder) ∧
    (∀ fs p c, (create_file fs p c).2.current_folder = fs.current_folder) ∧
    (∀ fs s d, (move fs s d).2.current_folder = fs.current_folder) ∧
    (∀ fs s d, (copy fs s d).2.current_folder = fs.current_folder) ∧
    (∀ fs p, (delete fs p).2.current_folder = fs.current_folder) ∧
    (∀ fs p n, (rename fs p n).2.current_folder = fs.current_folder) := by
  refine ⟨rfl, ?_, ?_, ?_, ?_, ?_, ?_⟩
  · intro fs pa na
    cases pa <;> cases na <;> simp only [create_folder, createFolderIn] <;>
      repeat' split
    all_goals rfl
  · intro fs p c
    simp only [create_file]
    repeat' split
    all_goals rfl
  · intro fs s d
    simp only [move]
    repeat' split
    all_goals rfl
  · intro fs s d
    simp only [copy]
    repeat' split
    all_goals rfl
  · intro fs p
    simp only [delete]
    repeat' split
    all_goals rfl
  · intro fs p n
    simp only [rename]
    repeat' split
    all_goals rfl

/-- Claim C9 (amended): only the literal path `"/"` is special-cased (it
resets the cursor to root); an empty or all-slash path other than `"/"`
is split by Python into the single empty segment `""`, whose lookup fails,
so `change_directory` raises InvalidPath and leaves the state unchanged
(assuming the base folder has no *folder* child stored under the empty
name, which no ordinary state has). -/
theorem C9_amended :
    (∀ fs, change_directory fs "/" =
      (.ok (), { fs with current_folder := fs.root })) ∧
    (∀ fs path, (∀ c ∈ path.data, c = '/') → path ≠ "/" →
      (∀ j, dictLookup (entContents (getEnt fs.heap
          (if isAbs path then fs.root else fs.current_folder))) "" = some j →
        isFolder (getEnt fs.heap j) = false) →
      change_directory fs path =
        (.error ("Invalid path: " ++ path ++
          " does not exist or is not a folder."), fs)) := by
  constructor
  · intro fs
    rfl
  · intro fs path hall hne hlook
    have hsegs : pathSegs path = [""] := pathSegs_all_slash path hall
    simp only [change_directory, if_neg hne, hsegs]
    have hdot : ("" : String) ≠ ".." := by decide
    cases hl : dictLookup (entContents (getEnt fs.heap
        (if isAbs path then fs.root else fs.current_folder))) "" with
    | none => simp [cdWalk, hdot, hl]
    | some j => simp [cdWalk, hdot, hl, hlook j hl]

/-- Claim C9 witness: the all-slash path `"//"` from the initial state hits
the amended theorem's InvalidPath case, and `"/"` resets the cursor. -/
theorem C9_amended_witness :
    change_directory initFS "//" =
      (.error ("Invalid path: " ++ "//" ++
        " does not exist or is not a folder."), initFS) ∧
    change_directory initFS "/" =
      (.ok (), { initFS with current_folder := initFS.root }) :=
  ⟨C9_amended.2 initFS "//" (by decide) (by decide) (fun j hj => by nomatch hj),
   C9_amended.1 initFS⟩

/-- Claim C7 (amended): `read_file` and `delete` pick their resolution base
purely from the leading slash — for absolute paths their behaviour is
independent of the cursor — but `create_file` consults the leading slash
only when parent segments remain after popping the filename: a
single-segment absolute path `"/name"` behaves exactly like the relative
path `"name"` and is created in the *current* folder. -/
theorem C7_amended :
    (∀ fs c path, isAbs path = true →
      read_file { fs with current_folder := c } path = read_file fs path) ∧
    (∀ fs c path, isAbs path = true →
      (delete { fs with current_folder := c } path).1 = (delete fs path).1 ∧
      (delete { fs with current_folder := c } path).2.heap =
        (delete fs path).2.heap) ∧
    (∀ fs name content, (∀ ch ∈ name.data, ch ≠ '/') →
      create_file fs ("/" ++ name) content = create_file fs name content) := by
  refine ⟨?_, ?_, ?_⟩
  · intro fs c path h
    simp [read_file, h]
  · intro fs c path h
    constructor
    · simp only [delete, h, if_true]
      cases hw : walkGet fs.heap (fun _ => "Invalid path") fs.root
          (pathSegs path).dropLast <;> simp [hw]
    · simp only [delete, h, if_true]
      cases hw : walkGet fs.heap (fun _ => "Invalid path") fs.root
          (pathSegs path).dropLast <;> simp [hw]
  · intro fs name content hns
    simp only [create_file, pathSegs_slash_name name hns,
      pathSegs_no_slash name hns]
    rfl

/-- Claim C7 witness: concrete instances of cursor-independence for an
absolute `read_file` and of the single-segment-absolute `create_file`
equivalence. -/
theorem C7_amended_witness :
    read_file { initFS with current_folder := 5 } "/x" = read_file initFS "/x" ∧
    create_file initFS ("/" ++ "f") "hi" = create_file initFS "f" "hi" :=
  ⟨C7_amended.1 initFS 5 "/x" (by decide),
   C7_amended.2.2 initFS "f" "hi" (by decide)⟩

/-! ## Further heap lemmas for the attach and round-trip theorems -/

theorem getEnt_oob (h : Heap) : ∀ i, h.length ≤ i → getEnt h i = .folder "" [] := by
  induction h with
  | nil => intro i _; rfl
  | cons x rest ih =>
      intro i hi
      cases i with
      | zero => exact absurd hi (by simp)
      | succ n => exact ih n (Nat.le_of_succ_le_succ hi)

theorem updContents_eq_setEnt (h : Heap) (i : Nat) (n : String)
    (c : List (String × Nat)) (f : List (String × Nat) → List (String × Nat))
    (hf : getEnt h i = .folder n c) :
    updContents h i f = setEnt h i (.folder n (f c)) := by
  unfold updContents
  rw [hf]

theorem setName_oob (h : Heap) (i : Nat) (n : String) (hi : h.length ≤ i) :
    setName h i n = h := by
  unfold setName
  cases getEnt h i <;> exact setEnt_oob h _ i hi

theorem isFolder_setName (h : Heap) (i : Nat) (n : String) :
    ∀ j, isFolder (getEnt (setName h i n) j) = isFolder (getEnt h j) := by
  intro j
  by_cases hij : i = j
  · subst hij
    by_cases hi : i < h.length
    · cases hf : getEnt h i with
      | file nm d => rw [getEnt_setName_self_file h i n nm d hi hf]; rfl
      | folder nm c => rw [getEnt_setName_self_folder h i n nm c hi hf]; rfl
    · rw [setName_oob h i n (Nat.le_of_not_lt hi)]
  · rw [getEnt_setName_ne h i j n hij]

theorem isFolder_updContents (h : Heap) (i : Nat)
    (f : List (String × Nat) → List (String × Nat)) :
    ∀ j, isFolder (getEnt (updContents h i f) j) = isFolder (getEnt h j) := by
  intro j
  by_cases hij : i = j
  · subst hij
    cases hf : getEnt h i with
    | file nm d =>
        have hid : updContents h i f = h := by
          unfold updContents
          rw [hf]
        rw [hid, hf]
    | folder nm c =>
        by_cases hi : i < h.length
        · rw [updContents_eq_setEnt h i nm c f hf, getEnt_setEnt_self h _ i hi]
          rfl
        · rw [updContents_eq_setEnt h i nm c f hf,
            setEnt_oob h _ i (Nat.le_of_not_lt hi), hf]
  · rw [getEnt_updContents_ne h i j f hij]

/-- Attaching a freshly allocated entry (`create_file`, `create_folder`,
`copy`): the target folder maps the new name to the new cell, whose `name`
field matches. -/
theorem attach_fresh (h : Heap) (F : Nat) (e : Entry) (nm : String)
    (hF : F < h.length) (hfold : isFolder (getEnt h F) = true)
    (hname : e.name = nm) :
    dictLookup (entContents (getEnt (updContents (h ++ [e]) F
        (fun c => dictSet c nm h.length)) F)) nm = some h.length ∧
    (getEnt (updContents (h ++ [e]) F (fun c => dictSet c nm h.length))
        h.length).name = nm := by
  obtain ⟨nF, cF, hFf⟩ := isFolder_ex _ hfold
  have hFf1 : getEnt (h ++ [e]) F = .folder nF cF := by
    rw [getEnt_append_lt h [e] F hF, hFf]
  have hupd : updContents (h ++ [e]) F (fun c => dictSet c nm h.length) =
      setEnt (h ++ [e]) F (.folder nF (dictSet cF nm h.length)) :=
    updContents_eq_setEnt _ _ _ _ _ hFf1
  have hlen : F < (h ++ [e]).length := by
    rw [List.length_append]
    exact Nat.lt_of_lt_of_le hF (Nat.le_add_right _ _)
  constructor
  · rw [hupd, getEnt_setEnt_self _ _ F hlen]
    exact dictLookup_dictSet_self cF nm h.length
  · rw [hupd, getEnt_setEnt_ne _ _ F h.length (Nat.ne_of_lt hF),
      getEnt_append_len h e]
    exact hname

/-- Re-attaching an existing item after renaming it (`rename`, `move`): the
target folder maps the new name to the item, whose `name` field matches. -/
theorem attach_after_setName (h1 : Heap) (item F : Nat) (nm : String)
    (hF : F < h1.length) (hi : item < h1.length)
    (hfold : isFolder (getEnt h1 F) = true) :
    dictLookup (entContents (getEnt (updContents (setName h1 item nm) F
        (fun c => dictSet c nm item)) F)) nm = some item ∧
    (getEnt (updContents (setName h1 item nm) F
        (fun c => dictSet c nm item)) item).name = nm := by
  have hfold2 : isFolder (getEnt (setName h1 item nm) F) = true := by
    rw [isFolder_setName h1 item nm F]
    exact hfold
  obtain ⟨n2, c2, hF2⟩ := isFolder_ex _ hfold2
  have hupd : updContents (setName h1 item nm) F (fun c => dictSet c nm item) =
      setEnt (setName h1 item nm) F (.folder n2 (dictSet c2 nm item)) :=
    updContents_eq_setEnt _ _ _ _ _ hF2
  have hFlen2 : F < (setName h1 item nm).length := by
    rw [length_setName]
    exact hF
  constructor
  · rw [hupd, getEnt_setEnt_self _ _ F hFlen2]
    exact dictLookup_dictSet_self c2 nm item
  · by_cases hIF : item = F
    · subst hIF
      rw [hupd, getEnt_setEnt_self _ _ item hFlen2]
      have hn2 : (getEnt (setName h1 item nm) item).name = nm :=
        name_getEnt_setName_self h1 item nm hi
      rw [hF2] at hn2
      exact hn2
    · rw [hupd, getEnt_setEnt_ne _ _ F item (fun hc => hIF hc.symm)]
      exact name_getEnt_setName_self h1 item nm hi

/-- A successful walk survives allocating a fresh cell and inserting it
under a previously absent name in *any* folder `G` (on the walked chain or
not): every segment still resolves to the same folder chain, because a
successful step can never have consumed the absent name in `G`. -/
theorem walkGet_preserved (h : Heap) (e : Entry) (G : Nat) (gname : String)
    (err err' : String → String) (hwf : HeapWF h) (hG : G < h.length)
    (nG : String) (cG : List (String × Nat))
    (hGf : getEnt h G = .folder nG cG)
    (hno : dictLookup cG gname = none) :
    ∀ (ps : List String) (cur F : Nat), walkGet h err cur ps = .ok F →
      walkGet (updContents (h ++ [e]) G (fun c => dictSet c gname h.length))
        err' cur ps = .ok F := by
  have hGf1 : getEnt (h ++ [e]) G = .folder nG cG := by
    rw [getEnt_append_lt h [e] G hG, hGf]
  have hupd : updContents (h ++ [e]) G (fun c => dictSet c gname h.length) =
      setEnt (h ++ [e]) G (.folder nG (dictSet cG gname h.length)) :=
    updContents_eq_setEnt _ _ _ _ _ hGf1
  have hlenG : G < (h ++ [e]).length := by
    rw [List.length_append]
    exact Nat.lt_of_lt_of_le hG (Nat.le_add_right _ _)
  intro ps
  induction ps with
  | nil =>
      intro cur F hw
      cases hw
      rfl
  | cons p rest ih =>
      intro cur F hw
      cases hl : dictLookup (entContents (getEnt h cur)) p with
      | none => simp only [walkGet, hl] at hw; cases hw
      | some j =>
          simp only [walkGet, hl] at hw
          by_cases hj : isFolder (getEnt h j) = true
          · rw [if_pos hj] at hw
            have hcur_lt : cur < h.length := by
              by_contra hge
              rw [getEnt_oob h cur (Nat.le_of_not_lt hge)] at hl
              cases hl
            have hjlt : j < h.length :=
              hwf (getEnt h cur) (getEnt_mem h cur hcur_lt) (p, j)
                (dictLookup_mem _ _ _ hl)
            have hstep : dictLookup (entContents
                (getEnt (updContents (h ++ [e]) G
                  (fun c => dictSet c gname h.length)) cur)) p = some j := by
              by_cases hcG : cur = G
              · subst hcG
                rw [hupd, getEnt_setEnt_self _ _ cur hlenG]
                have hlG : dictLookup cG p = some j := by
                  rw [hGf] at hl
                  exact hl
                have hpne : p ≠ gname := by
                  intro hpe
                  rw [hpe, hno] at hlG
                  cases hlG
                show dictLookup (dictSet cG gname h.length) p = some j
                rw [dictLookup_dictSet_ne cG gname p h.length hpne]
                exact hlG
              · rw [hupd, getEnt_setEnt_ne _ _ G cur (fun hc => hcG hc.symm),
                  getEnt_append_lt h [e] cur hcur_lt]
                exact hl
            have hjfold : isFolder (getEnt (updContents (h ++ [e]) G
                (fun c => dictSet c gname h.length)) j) = true := by
              by_cases hjG : j = G
              · subst hjG
                rw [hupd, getEnt_setEnt_self _ _ j hlenG]
                rfl
              · rw [hupd, getEnt_setEnt_ne _ _ G j (fun hc => hjG hc.symm),
                  getEnt_append_lt h [e] j hjlt]
                exact hj
            simp only [walkGet, hstep, if_pos hjfold]
            exact ih j F hw
          · rw [if_neg hj] at hw
            cases hw

/-- Claim C10 (amended): every attaching operation inserts the entry under a
key equal to the entry's `name` attribute *at attach time* — a successful
`create_file` leaves the new cell keyed by the path's leaf name, and
successful `rename`/`move` leave the item keyed by (and renamed to) the new
leaf name in the target folder.  The claim's global invariant over the whole
tree fails in reachable states, because shallow `copy` shares child
references and a later rename of one alias breaks key-equals-name in the
other parent (see the counterexample). -/
theorem C10_amended :
    (∀ fs path content, WFState fs → (create_file fs path content).1 = .ok () →
      ∃ fid,
        dictLookup (entContents (getEnt (create_file fs path content).2.heap fid))
            ((pathSegs path).getLastD "") = some fs.heap.length ∧
        (getEnt (create_file fs path content).2.heap fs.heap.length).name =
          (pathSegs path).getLastD "") ∧
    (∀ fs path n, WFState fs → (rename fs path n).1 = .ok () →
      ∃ fid item,
        dictLookup (entContents (getEnt (rename fs path n).2.heap fid)) n =
          some item ∧
        (getEnt (rename fs path n).2.heap item).name = n) ∧
    (∀ fs s d, WFState fs → (move fs s d).1 = .ok () →
      ∃ fid item,
        dictLookup (entContents (getEnt (move fs s d).2.heap fid))
            ((pathSegs d).getLastD "") = some item ∧
        (getEnt (move fs s d).2.heap item).name =
          (pathSegs d).getLastD "") := by
  refine ⟨?_, ?_, ?_⟩
  · intro fs path content hWF hok
    obtain ⟨hwf, hrlt, hclt, hrfold, hcfold⟩ := hWF
    simp only [create_file] at hok ⊢
    cases hR : (if (pathSegs path).dropLast.isEmpty = true
        then (Except.ok fs.current_folder : Except String Nat)
        else walkGet fs.heap (fun part => "Folder " ++ part ++ " does not exist.")
          (if isAbs path then fs.root else fs.current_folder)
          (pathSegs path).dropLast) with
    | error e => simp only [hR] at hok; nomatch hok
    | ok fid =>
        simp only [hR] at hok ⊢
        by_cases hk : dictHasKey (entContents (getEnt fs.heap fid))
            ((pathSegs path).getLastD "") = true
        · rw [if_pos hk] at hok; nomatch hok
        · have hfid_bound : fid < fs.heap.length ∧
              isFolder (getEnt fs.heap fid) = true := by
            by_cases hpp : (pathSegs path).dropLast.isEmpty = true
            · rw [if_pos hpp] at hR
              cases hR
              exact ⟨hclt, hcfold⟩
            · rw [if_neg hpp] at hR
              have hbl : (if isAbs path then fs.root else fs.current_folder) <
                  fs.heap.length := by
                split <;> assumption
              have hbf : isFolder (getEnt fs.heap
                  (if isAbs path then fs.root else fs.current_folder)) = true := by
                split <;> assumption
              exact walkGet_ok_bound fs.heap _ hwf _ _ _ hbl hbf hR
          obtain ⟨hfl, hff⟩ := hfid_bound
          have hmain := attach_fresh fs.heap fid
            (.file ((pathSegs path).getLastD "") (splitlines content))
            ((pathSegs path).getLastD "") hfl hff rfl
          refine ⟨fid, ?_, ?_⟩
          · rw [if_neg hk]
            exact hmain.1
          · rw [if_neg hk]
            exact hmain.2
  · intro fs path n hWF hok
    obtain ⟨hwf, hrlt, hclt, hrfold, hcfold⟩ := hWF
    simp only [rename] at hok ⊢
    cases hR : walkGet fs.heap (fun _ => "Invalid path")
        (if isAbs path then fs.root else fs.current_folder)
        (pathSegs path).dropLast with
    | error e => simp only [hR] at hok; nomatch hok
    | ok F =>
        simp only [hR] at hok ⊢
        cases hl : dictLookup (entContents (getEnt fs.heap F))
            ((pathSegs path).getLastD "") with
        | none => simp only [hl] at hok; nomatch hok
        | some item =>
            simp only [hl] at hok ⊢
            have hbl : (if isAbs path then fs.root else fs.current_folder) <
                fs.heap.length := by
              split <;> assumption
            have hbf : isFolder (getEnt fs.heap
                (if isAbs path then fs.root else fs.current_folder)) = true := by
              split <;> assumption
            obtain ⟨hFl, hFf⟩ := walkGet_ok_bound fs.heap _ hwf _ _ _ hbl hbf hR
            have hil : item < fs.heap.length :=
              hwf (getEnt fs.heap F) (getEnt_mem _ _ hFl) _
                (dictLookup_mem _ _ _ hl)
            have hF1 : F < (updContents fs.heap F
                (fun c => dictRemove c ((pathSegs path).getLastD ""))).length := by
              rw [length_updContents]
              exact hFl
            have hi1 : item < (updContents fs.heap F
                (fun c => dictRemove c ((pathSegs path).getLastD ""))).length := by
              rw [length_updContents]
              exact hil
            have hf1 : isFolder (getEnt (updContents fs.heap F
                (fun c => dictRemove c ((pathSegs path).getLastD ""))) F) = true := by
              rw [isFolder_updContents]
              exact hFf
            have hmain := attach_after_setName _ item F n hF1 hi1 hf1
            exact ⟨F, item, hmain.1, hmain.2⟩
  · intro fs s d hWF hok
    obtain ⟨hwf, hrlt, hclt, hrfold, hcfold⟩ := hWF
    simp only [move] at hok ⊢
    cases hR : walkGet fs.heap (fun _ => "Invalid source path")
        (if isAbs s then fs.root else fs.current_folder)
        (pathSegs s).dropLast with
    | error e => simp only [hR] at hok; nomatch hok
    | ok srcF =>
        simp only [hR] at hok ⊢
        cases hl : dictLookup (entContents (getEnt fs.heap srcF))
            ((pathSegs s).getLastD "") with
        | none => simp only [hl] at hok; nomatch hok
        | some item =>
            simp only [hl] at hok ⊢
            cases hD : walkGet fs.heap (fun _ => "Invalid destination path")
                (if isAbs d then fs.root else fs.current_folder)
                (pathSegs d).dropLast with
            | error e => simp only [hD] at hok; nomatch hok
            | ok destF =>
                simp only [hD] at hok ⊢
                have hsl : (if isAbs s then fs.root else fs.current_folder) <
                    fs.heap.length := by
                  split <;> assumption
                have hsf : isFolder (getEnt fs.heap
                    (if isAbs s then fs.root else fs.current_folder)) = true := by
                  split <;> assumption
                have hdl : (if isAbs d then fs.root else fs.current_folder) <
                    fs.heap.length := by
                  split <;> assumption
                have hdf : isFolder (getEnt fs.heap
                    (if isAbs d then fs.root else fs.current_folder)) = true := by
                  split <;> assumption
                obtain ⟨hSl, hSf⟩ :=
                  walkGet_ok_bound fs.heap _ hwf _ _ _ hsl hsf hR
                obtain ⟨hDl, hDf⟩ :=
                  walkGet_ok_bound fs.heap _ hwf _ _ _ hdl hdf hD
                have hil : item < fs.heap.length :=
                  hwf (getEnt fs.heap srcF) (getEnt_mem _ _ hSl) _
                    (dictLookup_mem _ _ _ hl)
                have hD1 : destF < (updContents fs.heap srcF
                    (fun c => dictRemove c ((pathSegs s).getLastD ""))).length := by
                  rw [length_updContents]
                  exact hDl
                have hi1 : item < (updContents fs.heap srcF
                    (fun c => dictRemove c ((pathSegs s).getLastD ""))).length := by
                  rw [length_updContents]
                  exact hil
                have hf1 : isFolder (getEnt (updContents fs.heap srcF
                    (fun c => dictRemove c ((pathSegs s).getLastD "")))
                    destF) = true := by
                  rw [isFolder_updContents]
                  exact hDf
                have hmain := attach_after_setName _ item destF
                  ((pathSegs d).getLastD "") hD1 hi1 hf1
                exact ⟨destF, item, hmain.1, hmain.2⟩

/-- Claim C10 witness: a concrete well-formed state and a successful rename
exercising the attach-time key-equals-name theorem. -/
theorem C10_amended_witness :
    WFState fsAB ∧ (rename fsAB "a" "c").1 = .ok () ∧
    ∃ fid item,
      dictLookup (entContents (getEnt (rename fsAB "a" "c").2.heap fid)) "c" =
        some item ∧
      (getEnt (rename fsAB "a" "c").2.heap item).name = "c" :=
  ⟨by decide, by decide, (C10_amended.2.1 fsAB "a" "c" (by decide) (by decide))⟩

/-- Claim C5 (amended): `createFile` followed by `readFile` on the same path
returns the *normalized* content — the `splitlines` decomposition rejoined
with `\n` — which equals the written string exactly when it has no trailing
newline and uses only `\n` boundaries (the counterexample shows `"hello\n"`
reads back `"hello"`); the absolute/single-segment mismatch of `create_file`
(claim C7) is excluded by hypothesis.  `append` followed by `read` returns
the prior content plus the new line joined by `\n` when the file already
stores at least one line, and just the line itself on a file with no stored
lines. -/
theorem C5_amended :
    (∀ fs path content, WFState fs →
      (isAbs path = true → (pathSegs path).dropLast ≠ [] ∨
        fs.current_folder = fs.root) →
      (create_file fs path content).1 = .ok () →
      read_file (create_file fs path content).2 path =
        .ok (joinNL (splitlines content))) ∧
    (∀ nm line, ∀ d : List String, d ≠ [] →
      ((Entry.file nm d).append line).read =
        (Entry.file nm d).read ++ "\n" ++ line) ∧
    (∀ nm line, ((Entry.file nm []).append line).read = line) := by
  refine ⟨?_, ?_, ?_⟩
  · intro fs path content hWF hbase hok
    obtain ⟨hwf, hrlt, hclt, hrfold, hcfold⟩ := hWF
    simp only [create_file] at hok ⊢
    cases hR : (if (pathSegs path).dropLast.isEmpty = true
        then (Except.ok fs.current_folder : Except String Nat)
        else walkGet fs.heap (fun part => "Folder " ++ part ++ " does not exist.")
          (if isAbs path then fs.root else fs.current_folder)
          (pathSegs path).dropLast) with
    | error e => simp only [hR] at hok; nomatch hok
    | ok fid =>
        simp only [hR] at hok ⊢
        by_cases hk : dictHasKey (entContents (getEnt fs.heap fid))
            ((pathSegs path).getLastD "") = true
        · rw [if_pos hk] at hok; nomatch hok
        · rw [if_neg hk] at hok ⊢
          have hcases : ((pathSegs path).dropLast = [] ∧ fid = fs.current_folder) ∨
              ((pathSegs path).dropLast ≠ [] ∧
                walkGet fs.heap
                  (fun part => "Folder " ++ part ++ " does not exist.")
                  (if isAbs path then fs.root else fs.current_folder)
                  (pathSegs path).dropLast = .ok fid) := by
            by_cases hpp : (pathSegs path).dropLast.isEmpty = true
            · rw [if_pos hpp] at hR
              cases hR
              exact .inl ⟨List.isEmpty_iff.mp hpp, rfl⟩
            · rw [if_neg hpp] at hR
              refine .inr ⟨?_, hR⟩
              intro hc
              rw [hc] at hpp
              exact hpp rfl
          have hfid_bound : fid < fs.heap.length ∧
              isFolder (getEnt fs.heap fid) = true := by
            rcases hcases with ⟨_, hfc⟩ | ⟨_, hwalk⟩
            · rw [hfc]
              exact ⟨hclt, hcfold⟩
            · have hbl : (if isAbs path then fs.root else fs.current_folder) <
                  fs.heap.length := by
                split <;> assumption
              have hbf : isFolder (getEnt fs.heap
                  (if isAbs path then fs.root else fs.current_folder)) = true := by
                split <;> assumption
              exact walkGet_ok_bound fs.heap _ hwf _ _ _ hbl hbf hwalk
          obtain ⟨hfl, hff⟩ := hfid_bound
          obtain ⟨nF, cF, hFf⟩ := isFolder_ex _ hff
          have hk' : dictHasKey (entContents (getEnt fs.heap fid))
              ((pathSegs path).getLastD "") = false := by
            revert hk
            cases dictHasKey (entContents (getEnt fs.heap fid))
              ((pathSegs path).getLastD "") <;> simp
          have hno : dictLookup cF ((pathSegs path).getLastD "") = none := by
            have hlk := dictHasKey_false_lookup _ _ hk'
            rw [hFf] at hlk
            exact hlk
          have hFf1 : getEnt (fs.heap ++
              [Entry.file ((pathSegs path).getLastD "") (splitlines content)]) fid =
              .folder nF cF := by
            rw [getEnt_append_lt _ _ fid hfl, hFf]
          have hupd : updContents (fs.heap ++
              [Entry.file ((pathSegs path).getLastD "") (splitlines content)]) fid
              (fun c => dictSet c ((pathSegs path).getLastD "") fs.heap.length) =
              setEnt (fs.heap ++
                [Entry.file ((pathSegs path).getLastD "") (splitlines content)]) fid
                (.folder nF (dictSet cF ((pathSegs path).getLastD "")
                  fs.heap.length)) :=
            updContents_eq_setEnt _ _ _ _ _ hFf1
          have hlenF : fid < (fs.heap ++
              [Entry.file ((pathSegs path).getLastD "") (splitlines content)]).length := by
            rw [List.length_append]
            exact Nat.lt_of_lt_of_le hfl (Nat.le_add_right _ _)
          have hW : walkGet (updContents (fs.heap ++
              [Entry.file ((pathSegs path).getLastD "") (splitlines content)]) fid
              (fun c => dictSet c ((pathSegs path).getLastD "") fs.heap.length))
              (fun _ => "Invalid path")
              (if isAbs path then fs.root else fs.current_folder)
              (pathSegs path).dropLast = .ok fid := by
            rcases hcases with ⟨hppnil, hfc⟩ | ⟨hppne, hwalk⟩
            · rw [hppnil]
              by_cases habs : isAbs path = true
              · rcases hbase habs with hcontra | hroot
                · exact absurd hppnil hcontra
                · simp [walkGet, if_pos habs, hfc, hroot]
              · simp only [Bool.not_eq_true] at habs
                simp [walkGet, habs, hfc]
            · exact walkGet_preserved fs.heap _ fid _ _ _ hwf hfl nF cF hFf hno
                _ _ _ hwalk
          have hlook : dictLookup (entContents (getEnt (updContents (fs.heap ++
              [Entry.file ((pathSegs path).getLastD "") (splitlines content)]) fid
              (fun c => dictSet c ((pathSegs path).getLastD "") fs.heap.length))
              fid)) ((pathSegs path).getLastD "") = some fs.heap.length := by
            rw [hupd, getEnt_setEnt_self _ _ fid hlenF]
            exact dictLookup_dictSet_self _ _ _
          have hcell : getEnt (updContents (fs.heap ++
              [Entry.file ((pathSegs path).getLastD "") (splitlines content)]) fid
              (fun c => dictSet c ((pathSegs path).getLastD "") fs.heap.length))
              fs.heap.length =
              .file ((pathSegs path).getLastD "") (splitlines content) := by
            rw [hupd, getEnt_setEnt_ne _ _ fid fs.heap.length (Nat.ne_of_lt hfl),
              getEnt_append_len]
          simp only [read_file, hW, hlook, hcell]
  · intro nm line d hd
    show joinNL (d ++ [line]) = joinNL d ++ "\n" ++ line
    exact joinNL_append_singleton line d hd
  · intro nm line
    rfl

/-- Claim C5 witness: concrete instances — creating and reading `f` with
content `hello` in the initial state, and appending to a one-line file. -/
theorem C5_amended_witness :
    WFState initFS ∧ (create_file initFS "f" "hello").1 = .ok () ∧
    read_file (create_file initFS "f" "hello").2 "f" =
      .ok (joinNL (splitlines "hello")) ∧
    ((Entry.file "g" ["a"]).append "b").read =
      (Entry.file "g" ["a"]).read ++ "\n" ++ "b" :=
  ⟨by decide, by decide,
   C5_amended.1 initFS "f" "hello" (by decide) (by decide) (by decide),
   C5_amended.2.1 "g" "b" ["a"] (by simp)⟩

/-- A successful `copy`-style attach of an opaque fresh cell `e` under a
previously absent name `dn` in folder `destF`: source resolution walks are
preserved, the source's final lookup still yields the same item, every
pre-existing cell except the destination folder is untouched (in particular
the source entry, when it is not the destination folder), the heap grows by
exactly the fresh cell, and the destination folder registers the fresh
index under `dn`. -/
theorem copy_attach_core (h : Heap) (e : Entry) (srcF item destF : Nat)
    (sn dn : String) (hwf : HeapWF h)
    (hSl : srcF < h.length) (hDl : destF < h.length)
    (hDf : isFolder (getEnt h destF) = true)
    (hsl : dictLookup (entContents (getEnt h srcF)) sn = some item)
    (hdfresh : dictLookup (entContents (getEnt h destF)) dn = none)
    (hil : item < h.length) (hne : item ≠ destF) :
    (∀ (err err' : String → String) (ps : List String) (cur : Nat),
      walkGet h err cur ps = .ok srcF →
      walkGet (updContents (h ++ [e]) destF (fun c => dictSet c dn h.length))
        err' cur ps = .ok srcF) ∧
    dictLookup (entContents (getEnt (updContents (h ++ [e]) destF
      (fun c => dictSet c dn h.length)) srcF)) sn = some item ∧
    getEnt (updContents (h ++ [e]) destF (fun c => dictSet c dn h.length))
      item = getEnt h item ∧
    (updContents (h ++ [e]) destF (fun c => dictSet c dn h.length)).length =
      h.length + 1 ∧
    dictLookup (entContents (getEnt (updContents (h ++ [e]) destF
      (fun c => dictSet c dn h.length)) destF)) dn = some h.length ∧
    getEnt (updContents (h ++ [e]) destF (fun c => dictSet c dn h.length))
      h.length = e := by
  obtain ⟨nD, cD, hDfolder⟩ := isFolder_ex _ hDf
  have hnoD : dictLookup cD dn = none := by
    have h' := hdfresh
    simp only [hDfolder, entContents] at h'
    exact h'
  have hDf1 : getEnt (h ++ [e]) destF = .folder nD cD := by
    rw [getEnt_append_lt h [e] destF hDl, hDfolder]
  have hupd : updContents (h ++ [e]) destF (fun c => dictSet c dn h.length) =
      setEnt (h ++ [e]) destF (.folder nD (dictSet cD dn h.length)) :=
    updContents_eq_setEnt _ _ _ _ _ hDf1
  have hlenD : destF < (h ++ [e]).length := by
    rw [List.length_append]
    exact Nat.lt_of_lt_of_le hDl (Nat.le_add_right _ _)
  refine ⟨?_, ?_, ?_, ?_, ?_, ?_⟩
  · intro err err' ps cur hw
    exact walkGet_preserved h e destF dn err err' hwf hDl nD cD hDfolder hnoD
      ps cur srcF hw
  · by_cases hsd : srcF = destF
    · subst hsd
      rw [hupd, getEnt_setEnt_self _ _ _ hlenD]
      have hslD : dictLookup cD sn = some item := by
        have h' := hsl
        simp only [hDfolder, entContents] at h'
        exact h'
      have hsn_ne : sn ≠ dn := by
        intro hceq
        rw [hceq, hnoD] at hslD
        cases hslD
      simp only [entContents]
      rw [dictLookup_dictSet_ne cD dn sn h.length hsn_ne]
      exact hslD
    · rw [hupd, getEnt_setEnt_ne _ _ destF srcF (fun hc => hsd hc.symm),
        getEnt_append_lt h [e] srcF hSl]
      exact hsl
  · rw [hupd, getEnt_setEnt_ne _ _ destF item (fun hc => hne hc.symm),
      getEnt_append_lt h [e] item hil]
  · rw [hupd, length_setEnt, List.length_append]
    rfl
  · rw [hupd, getEnt_setEnt_self _ _ _ hlenD]
    simp only [entContents]
    exact dictLookup_dictSet_self cD dn h.length
  · rw [hupd, getEnt_setEnt_ne _ _ destF h.length (Nat.ne_of_lt hDl),
      getEnt_append_len h e]

/-- `copy_attach_core` lifted to the `FileSystem` state, with the source
path's resolvability conclusion assembled from the preserved walk and
lookup. -/
theorem copy_attach_full (fs : FileSystem) (e : Entry) (s : String)
    (srcF item destF : Nat) (dn : String)
    (hwf : HeapWF fs.heap) (hSl : srcF < fs.heap.length)
    (hDl : destF < fs.heap.length)
    (hDf : isFolder (getEnt fs.heap destF) = true)
    (hsw : walkGet fs.heap (fun _ => "Invalid source path")
      (if isAbs s then fs.root else fs.current_folder)
      (pathSegs s).dropLast = .ok srcF)
    (hsl : dictLookup (entContents (getEnt fs.heap srcF))
      ((pathSegs s).getLastD "") = some item)
    (hdfresh : dictLookup (entContents (getEnt fs.heap destF)) dn = none)
    (hil : item < fs.heap.length) (hne : item ≠ destF) :
    resolve_entry
      ⟨updContents (fs.heap ++ [e]) destF (fun c => dictSet c dn fs.heap.length),
        fs.root, fs.current_folder⟩ s = .ok item ∧
    getEnt (updContents (fs.heap ++ [e]) destF
      (fun c => dictSet c dn fs.heap.length)) item = getEnt fs.heap item ∧
    (updContents (fs.heap ++ [e]) destF
      (fun c => dictSet c dn fs.heap.length)).length = fs.heap.length + 1 ∧
    dictLookup (entContents (getEnt (updContents (fs.heap ++ [e]) destF
      (fun c => dictSet c dn fs.heap.length)) destF)) dn =
        some fs.heap.length ∧
    getEnt (updContents (fs.heap ++ [e]) destF
      (fun c => dictSet c dn fs.heap.length)) fs.heap.length = e := by
  have hcore := copy_attach_core fs.heap e srcF item destF
    ((pathSegs s).getLastD "") dn hwf hSl hDl hDf hsl hdfresh hil hne
  refine ⟨?_, hcore.2.2.1, hcore.2.2.2.1, hcore.2.2.2.2.1, hcore.2.2.2.2.2⟩
  have hW := hcore.1 (fun _ => "Invalid source path") (fun _ => "Invalid path")
    (pathSegs s).dropLast (if isAbs s then fs.root else fs.current_folder) hsw
  simp only [resolve_entry, hW, hcore.2.1]

/-- Claim C6 (amended): for every successful `copy(src, dst)` whose
destination leaf name does not collide with an existing entry in the
destination parent (a collision makes `Folder.add` silently replace that
entry, which can detach the source itself or one of its ancestors — the
counterexample's second scenario) and whose destination parent folder is
not the source entry itself (copying a folder into itself changes the
source's children — the counterexample's first scenario): the source still
resolves to the very same cell, whose name, content and children mapping
are unchanged; the heap grows by exactly one freshly allocated clone cell,
registered in the destination parent under the destination leaf name — for
a file source an independent `File` re-splitting the source's `read()`,
for a folder source a `Folder` whose children mapping is the *same* list
of child references as the source's (shallow sharing).  The two trailing
scenario families exhibit the observable consequences for arbitrary
contents: a mutation through the copied folder's path is visible through
the source's path, while mutating a copied file leaves the source file
unchanged. -/
theorem C6_amended :
    (∀ fs s d srcF item destF, WFState fs →
      walkGet fs.heap (fun _ => "Invalid source path")
        (if isAbs s then fs.root else fs.current_folder)
        (pathSegs s).dropLast = .ok srcF →
      dictLookup (entContents (getEnt fs.heap srcF))
        ((pathSegs s).getLastD "") = some item →
      walkGet fs.heap (fun _ => "Invalid destination path")
        (if isAbs d then fs.root else fs.current_folder)
        (pathSegs d).dropLast = .ok destF →
      dictLookup (entContents (getEnt fs.heap destF))
        ((pathSegs d).getLastD "") = none →
      item ≠ destF →
      (copy fs s d).1 = .ok () ∧
      resolve_entry (copy fs s d).2 s = .ok item ∧
      getEnt (copy fs s d).2.heap item = getEnt fs.heap item ∧
      (copy fs s d).2.heap.length = fs.heap.length + 1 ∧
      dictLookup (entContents (getEnt (copy fs s d).2.heap destF))
        ((pathSegs d).getLastD "") = some fs.heap.length ∧
      (∀ nI dI, getEnt fs.heap item = .file nI dI →
        getEnt (copy fs s d).2.heap fs.heap.length =
          .file ((pathSegs d).getLastD "") (splitlines (joinNL dI))) ∧
      (∀ nI cI, getEnt fs.heap item = .folder nI cI →
        getEnt (copy fs s d).2.heap fs.heap.length =
          .folder ((pathSegs d).getLastD "") cI)) ∧
    (∀ c line : String,
      (copy (fsFolderX c) "/a" "/b").1 = .ok () ∧
      resolve_entry (copy (fsFolderX c) "/a" "/b").2 "/a" = .ok 1 ∧
      getEnt (copy (fsFolderX c) "/a" "/b").2.heap 1 = .folder "a" [("x", 2)] ∧
      entContents (getEnt (copy (fsFolderX c) "/a" "/b").2.heap 3) = [("x", 2)] ∧
      resolve_entry (copy (fsFolderX c) "/a" "/b").2 "/b/x" =
        resolve_entry (copy (fsFolderX c) "/a" "/b").2 "/a/x" ∧
      read_file (append_at (copy (fsFolderX c) "/a" "/b").2 "/b/x" line) "/a/x" =
        .ok (joinNL (splitlines c ++ [line]))) ∧
    (∀ c line : String,
      (copy (fsFileF c) "/f" "/g").1 = .ok () ∧
      resolve_entry (copy (fsFileF c) "/f" "/g").2 "/f" = .ok 1 ∧
      resolve_entry (copy (fsFileF c) "/f" "/g").2 "/g" = .ok 2 ∧
      getEnt (copy (fsFileF c) "/f" "/g").2.heap 1 = .file "f" (splitlines c) ∧
      read_file (append_at (copy (fsFileF c) "/f" "/g").2 "/g" line) "/f" =
        .ok (joinNL (splitlines c))) := by
  refine ⟨?_, fun _ _ => ⟨rfl, rfl, rfl, rfl, rfl, rfl⟩,
    fun _ _ => ⟨rfl, rfl, rfl, rfl, rfl⟩⟩
  intro fs s d srcF item destF hWF hsw hsl hdw hdfresh hne
  obtain ⟨hwf, hrlt, hclt, hrfold, hcfold⟩ := hWF
  have hsb_lt : (if isAbs s then fs.root else fs.current_folder) <
      fs.heap.length := by
    split <;> assumption
  have hsb_f : isFolder (getEnt fs.heap
      (if isAbs s then fs.root else fs.current_folder)) = true := by
    split <;> assumption
  have hdb_lt : (if isAbs d then fs.root else fs.current_folder) <
      fs.heap.length := by
    split <;> assumption
  have hdb_f : isFolder (getEnt fs.heap
      (if isAbs d then fs.root else fs.current_folder)) = true := by
    split <;> assumption
  obtain ⟨hSl, hSf⟩ := walkGet_ok_bound fs.heap _ hwf _ _ _ hsb_lt hsb_f hsw
  obtain ⟨hDl, hDf⟩ := walkGet_ok_bound fs.heap _ hwf _ _ _ hdb_lt hdb_f hdw
  have hil : item < fs.heap.length :=
    hwf (getEnt fs.heap srcF) (getEnt_mem _ _ hSl) _ (dictLookup_mem _ _ _ hsl)
  cases hItem : getEnt fs.heap item with
  | file nI dI =>
      have hfull := copy_attach_full fs
        (Entry.file ((pathSegs d).getLastD "") (splitlines (joinNL dI)))
        s srcF item destF ((pathSegs d).getLastD "")
        hwf hSl hDl hDf hsw hsl hdfresh hil hne
      simp only [copy, hsw, hsl, hdw, hItem]
      refine ⟨trivial, hfull.1, hfull.2.1.trans hItem, hfull.2.2.1,
        hfull.2.2.2.1, ?_, ?_⟩
      · intro nI' dI' h'
        cases h'
        exact hfull.2.2.2.2
      · intro nI' cI' h'
        cases h'
  | folder nI cI =>
      have hfull := copy_attach_full fs
        (Entry.folder ((pathSegs d).getLastD "") cI)
        s srcF item destF ((pathSegs d).getLastD "")
        hwf hSl hDl hDf hsw hsl hdfresh hil hne
      simp only [copy, hsw, hsl, hdw, hItem]
      refine ⟨trivial, hfull.1, hfull.2.1.trans hItem, hfull.2.2.1,
        hfull.2.2.2.1, ?_, ?_⟩
      · intro nI' dI' h'
        cases h'
      · intro nI' cI' h'
        cases h'
        exact hfull.2.2.2.2

/-- Claim C6 witness: a concrete well-formed state (`root/a/x`) and the
successful collision-free copy `/a` to `/b`, exercising the amended
theorem's hypotheses. -/
theorem C6_amended_witness :
    WFState (fsFolderX "hi") ∧
    (copy (fsFolderX "hi") "/a" "/b").1 = .ok () ∧
    resolve_entry (copy (fsFolderX "hi") "/a" "/b").2 "/a" = .ok 1 ∧
    getEnt (copy (fsFolderX "hi") "/a" "/b").2.heap 1 =
      getEnt (fsFolderX "hi").heap 1 :=
  ⟨by decide,
   (C6_amended.1 (fsFolderX "hi") "/a" "/b" 0 1 0 (by decide) (by decide)
     (by decide) (by decide) (by decide) (by decide)).1,
   (C6_amended.1 (fsFolderX "hi") "/a" "/b" 0 1 0 (by decide) (by decide)
     (by decide) (by decide) (by decide) (by decide)).2.1,
   (C6_amended.1 (fsFolderX "hi") "/a" "/b" 0 1 0 (by decide) (by decide)
     (by decide) (by decide) (by decide) (by decide)).2.2.1⟩
